import Mathlib

/-!
# nimvle: buffer content and scratch-buffer helpers over the Neovim client

A shallow embedding of `nimvle/nimvle.go`.  Go strings are byte sequences, the
Neovim client is a state machine `Host` that records every request it is sent,
and each method of `*Nimvle` is a function from the host state before the call
to the host state after it together with the values the method returns.
-/

namespace Nimvle

/-! ## Go strings and the `strings` functions the package calls -/

/-- A Go byte. -/
abbrev Byte := UInt8

/-- A Go `string` (and equally a `[]byte`): a finite sequence of bytes. -/
abbrev GoString := List Byte

/-- The byte of the string `"\n"`. -/
def newline : Byte := 10

/-- The byte of the string `"."`. -/
def dot : Byte := 46

/-- Go `strings.IndexByte(s, c)`: the index of the first `c` in `s`, or `-1`. -/
def IndexByte : GoString → Byte → Int
  | [], _ => -1
  | x :: xs, c =>
    if x = c then 0
    else
      let m := IndexByte xs c
      if m < 0 then -1 else m + 1

/-- Go `strings.Count(s, sep)` for a one-byte `sep`: how many bytes of `s` equal `c`. -/
def Count (s : GoString) (c : Byte) : Nat :=
  s.count c

/-- The loop of Go `strings.genSplit` for a one-byte separator, `k` being the
number of iterations left (`n - i`): cut at the first separator until none is
left or the count is used up, then store the rest as the last element. -/
def genSplitLoop (c : Byte) : Nat → GoString → List GoString
  | 0, s => [s]
  | k + 1, s =>
    let m := IndexByte s c
    if m < 0 then [s]
    else s.take m.toNat :: genSplitLoop c k (s.drop (m.toNat + 1))

/-- Go `strings.Split(s, sep)` for a one-byte separator `sep = string(c)`, the
only way the package calls it: `genSplit(s, sep, 0, -1)`. -/
def Split (s : GoString) (c : Byte) : List GoString :=
  let n := Count s c + 1
  let n := if n > s.length + 1 then s.length + 1 else n
  genSplitLoop c (n - 1) s

/-- Go `a[i]` on a slice; `none` stands for the run-time panic "index out of range". -/
def sliceIndex {α : Type} (a : List α) (i : Int) : Option α :=
  if 0 ≤ i ∧ i < (a.length : Int) then a[i.toNat]? else none

/-- The body of `for i, c := range lines` in `GetContentFromBuffer`, from index
`i` on, `len` being `len(lines)`: append the line, and a `"\n"` when
`i < len(lines)-1`. -/
def rangeLoop (len : Int) : Nat → List GoString → GoString → GoString
  | _, [], content => content
  | i, c :: rest, content =>
    let content := content ++ c
    let content := if (i : Int) < len - 1 then content ++ [newline] else content
    rangeLoop len (i + 1) rest content

/-- The join loop of `GetContentFromBuffer` (nimvle.go, lines 80-86). -/
def toText (lines : List GoString) : GoString :=
  rangeLoop (lines.length : Int) 0 lines []

/-- The split of `SetContentToBuffer` (nimvle.go, line 102): `strings.Split(content, "\n")`. -/
def fromText (content : GoString) : List GoString :=
  Split content newline

/-- A non-nil value of interface type `fmt.Stringer`, given by what `fmt` can observe of
it: the text its `String` method returns, the text its `Error` method returns when it is
also an `error`, and the text its `Format` method writes for the verb `v` when it is also
a `fmt.Formatter`.  The methods are taken to return normally. -/
structure Stringer where
  String : GoString
  Error : Option GoString
  Format : Option GoString

/-- The text `<nil>` that `fmt` prints for a nil operand. -/
def nilAngleString : GoString := [60, 110, 105, 108, 62]

/-- Go `fmt.Sprint(str)` on one operand of interface type `fmt.Stringer`, `none` being the
nil interface value (`printArg` with the verb `v`, then `handleMethods`): a nil operand
prints as `<nil>`, a `fmt.Formatter` is formatted by `Format`, an `error` by `Error`, and
only then a `Stringer` by `String`. -/
def fmtSprint : Option Stringer → GoString
  | none => nilAngleString
  | some v =>
    match v.Format with
    | some text => text
    | none =>
      match v.Error with
      | some text => text
      | none => v.String

/-! ## The host editor behind `nvim.Nvim` -/

/-- Go `nvim.Buffer`, an `int` handle. -/
abbrev Buffer := Int

/-- Go `nvim.Window`, an `int` handle. -/
abbrev Window := Int

/-- The errors the client calls return. -/
inductive GoError
  | transport
  | invalidBuffer
  | notModifiable
  | unknownFunction
  | noRoom
  | invalidWindow
  deriving DecidableEq, Repr

/-- The Ex commands the modelled methods send. -/
inductive ExCommand
  | sb (buf : Buffer)
  deriving DecidableEq, Repr

/-- The expressions the modelled methods evaluate; `getWindowList` is the
constant `vivid#getWindowList()`. -/
inductive VimExpr
  | getWindowList
  deriving DecidableEq, Repr

/-- A call queued on an `nvim.Batch`. -/
inductive BatchCall
  | CurrentWindow
  | Command (cmd : ExCommand)
  | SetWindowHeight (win : Window) (height : Int)
  deriving DecidableEq, Repr

/-- What one call of a batch returns. -/
inductive BatchResult
  | window (win : Window)
  | unit
  deriving DecidableEq, Repr

/-- A request of the client to the host, with its arguments. -/
inductive Request
  | CurrentBuffer
  | BufferName (buf : Buffer)
  | BufferLines (buf : Buffer) (start stop : Int) (strict : Bool)
  | SetBufferLines (buf : Buffer) (start stop : Int) (strict : Bool)
      (replacement : List GoString)
  | Eval (expr : VimExpr)
  | Execute (calls : List BatchCall)
  | SetCurrentWindow (win : Window)
  deriving DecidableEq, Repr

/-- One buffer of the host. -/
structure BufferState where
  name : GoString
  lines : List GoString
  modifiable : Bool

/-- Modelled from the spec: the host editor reached through `nvim.Nvim`, which is
not part of the package.  Reading or writing a buffer fails when the transport
is down or the buffer does not exist, writing also when the buffer is not
modifiable; the window list maps each window to the buffer it shows and is the
value of `vivid#getWindowList()` when that function is defined; `:sb` opens a
new window on an existing buffer when there is room to split.  `sent` records
every request of the client, in order. -/
structure Host where
  connected : Bool
  buffers : Buffer → Option BufferState
  curbuf : Buffer
  windows : List (Window × Buffer)
  curwin : Window
  vivid : Bool
  room : Bool
  sent : List Request

namespace Host

/-- Modelled from the spec: the host records a request of the client. -/
def log (h : Host) (r : Request) : Host :=
  { h with sent := h.sent ++ [r] }

/-- Modelled from the spec: the host's answer to `v.CurrentBuffer()`. -/
def CurrentBuffer (h : Host) : Host × Buffer × Option GoError :=
  let h := h.log Request.CurrentBuffer
  if h.connected then (h, h.curbuf, none) else (h, 0, some GoError.transport)

/-- Modelled from the spec: the host's answer to `v.BufferName(buf)`. -/
def BufferName (h : Host) (buf : Buffer) : Host × GoString × Option GoError :=
  let h := h.log (Request.BufferName buf)
  if h.connected then
    match h.buffers buf with
    | none => (h, [], some GoError.invalidBuffer)
    | some bs => (h, bs.name, none)
  else (h, [], some GoError.transport)

/-- Modelled from the spec: the host's answer to `v.BufferLines(buf, 0, -1, true)`, all
lines of the buffer. -/
def BufferLines (h : Host) (buf : Buffer) : Host × List GoString × Option GoError :=
  let h := h.log (Request.BufferLines buf 0 (-1) true)
  if h.connected then
    match h.buffers buf with
    | none => (h, [], some GoError.invalidBuffer)
    | some bs => (h, bs.lines, none)
  else (h, [], some GoError.transport)

/-- Modelled from the spec: the host's answer to
`v.SetBufferLines(buf, 0, -1, true, replacement)`, all lines of the buffer are replaced. -/
def SetBufferLines (h : Host) (buf : Buffer) (replacement : List GoString) :
    Host × Option GoError :=
  let h := h.log (Request.SetBufferLines buf 0 (-1) true replacement)
  if h.connected then
    match h.buffers buf with
    | none => (h, some GoError.invalidBuffer)
    | some bs =>
      if bs.modifiable then
        ({ h with buffers := fun b =>
            if b = buf then some { bs with lines := replacement } else h.buffers b }, none)
      else (h, some GoError.notModifiable)
  else (h, some GoError.transport)

/-- Modelled from the spec: the key under which a window appears in the window list. -/
def windowKey (w : Window) : String :=
  toString w

/-- Modelled from the spec: the host's answer to `v.Eval(getWindowList, &res)`, `res` being
a `map[string]int`, kept as the list of its entries. -/
def Eval (h : Host) (expr : VimExpr) : Host × List (String × Int) × Option GoError :=
  let h := h.log (Request.Eval expr)
  if h.connected then
    match expr with
    | VimExpr.getWindowList =>
      if h.vivid then (h, h.windows.map (fun wb => (windowKey wb.1, wb.2)), none)
      else (h, [], some GoError.unknownFunction)
  else (h, [], some GoError.transport)

/-- Modelled from the spec: a window handle not in use. -/
def freshWindow (h : Host) : Window :=
  (h.windows.map (fun wb => wb.1)).foldl max h.curwin + 1

/-- Modelled from the spec: one call of a batch, run by the host.  `:sb` splits the
current window, shows the buffer in the new window and makes it current; window 0 names
the current window. -/
def call (h : Host) : BatchCall → Host × BatchResult × Option GoError
  | BatchCall.CurrentWindow => (h, BatchResult.window h.curwin, none)
  | BatchCall.Command (ExCommand.sb buf) =>
    match h.buffers buf with
    | none => (h, BatchResult.unit, some GoError.invalidBuffer)
    | some _ =>
      if h.room then
        ({ h with windows := h.windows ++ [(h.freshWindow, buf)], curwin := h.freshWindow },
          BatchResult.unit, none)
      else (h, BatchResult.unit, some GoError.noRoom)
  | BatchCall.SetWindowHeight win _ =>
    if win = 0 ∨ win ∈ h.windows.map (fun wb => wb.1) then (h, BatchResult.unit, none)
    else (h, BatchResult.unit, some GoError.invalidWindow)

/-- Modelled from the spec: the calls of a batch in order, stopping at the first that fails. -/
def callAtomic (h : Host) : List BatchCall → Host × List BatchResult × Option GoError
  | [] => (h, [], none)
  | c :: cs =>
    match h.call c with
    | (h1, r, none) =>
      match callAtomic h1 cs with
      | (h2, rs, e) => (h2, r :: rs, e)
    | (h1, _, some e) => (h1, [], some e)

/-- Modelled from the spec: the host's answer to `b.Execute()` for a batch holding `calls`. -/
def Execute (h : Host) (calls : List BatchCall) : Host × List BatchResult × Option GoError :=
  let h := h.log (Request.Execute calls)
  if h.connected then h.callAtomic calls else (h, [], some GoError.transport)

/-- Modelled from the spec: the host's answer to `v.SetCurrentWindow(win)`. -/
def SetCurrentWindow (h : Host) (win : Window) : Host × Option GoError :=
  let h := h.log (Request.SetCurrentWindow win)
  if h.connected then
    if win ∈ h.windows.map (fun wb => wb.1) then ({ h with curwin := win }, none)
    else (h, some GoError.invalidWindow)
  else (h, some GoError.transport)

end Host

/-! ## The methods of `*Nimvle` -/

/-- Method `CurrentBufferFilenameExtension` (nimvle.go, lines 34-48); `none` is a
run-time panic of the index expression. -/
def CurrentBufferFilenameExtension (h : Host) : Option (Host × GoString × Option GoError) :=
  match h.CurrentBuffer with
  | (h1, _, some err) => some (h1, [], some err)
  | (h1, buf, none) =>
    match h1.BufferName buf with
    | (h2, _, some err) => some (h2, [], some err)
    | (h2, bufferName, none) =>
      match sliceIndex (Split bufferName dot) (((Split bufferName dot).length : Int) - 1) with
      | none => none
      | some dotName => some (h2, dotName, none)

/-- Method `GetContentFromBuffer` (nimvle.go, lines 74-89). -/
def GetContentFromBuffer (h : Host) (buf : Buffer) : Host × GoString × Option GoError :=
  match h.BufferLines buf with
  | (h1, _, some err) => (h1, [], some err)
  | (h1, lines, none) => (h1, toText lines, none)

/-- Method `setContentToBuffer` (nimvle.go, lines 91-98): the lines are copied
to `[][]byte` one by one and sent. -/
def setContentToBuffer (h : Host) (buf : Buffer) (lines : List GoString) :
    Host × Option GoError :=
  let byteContent : List GoString := lines.foldl (fun acc c => acc ++ [c]) []
  h.SetBufferLines buf byteContent

/-- Method `SetContentToBuffer` (nimvle.go, lines 101-105). -/
def SetContentToBuffer (h : Host) (buf : Buffer) (content : GoString) : Host × Option GoError :=
  let lines := fromText content
  setContentToBuffer h buf lines

/-- Method `SetContentToBuffer` of the older copy `nimvle.go` at the root of the
repository (lines 85-94): the split and the copy to `[][]byte` in one body. -/
def SetContentToBufferRoot (h : Host) (buf : Buffer) (content : GoString) :
    Host × Option GoError :=
  let tmp := Split content newline
  let byteContent : List GoString := tmp.foldl (fun acc c => acc ++ [c]) []
  h.SetBufferLines buf byteContent

/-- Method `SetStringerContentToBuffer` (nimvle.go, lines 108-113). -/
def SetStringerContentToBuffer (h : Host) (buf : Buffer) (str : Option Stringer) :
    Host × Option GoError :=
  let content := fmtSprint str
  let lines := Split content newline
  setContentToBuffer h buf lines

/-- Method `GetWindowList` (nimvle.go, lines 116-124); the map is kept as the
list of its entries. -/
def GetWindowList (h : Host) : Host × List (String × Int) × Option GoError :=
  match h.Eval VimExpr.getWindowList with
  | (h1, _, some err) => (h1, [], some err)
  | (h1, res, none) => (h1, res, none)

/-- The batch built by `SplitOpenBuffer`; `win` still has its zero value when
`SetWindowHeight` is queued. -/
def splitBatch (buf : Buffer) : List BatchCall :=
  let win : Window := 0
  [BatchCall.CurrentWindow, BatchCall.Command (ExCommand.sb buf), BatchCall.CurrentWindow,
    BatchCall.SetWindowHeight win 15]

/-- Method `SplitOpenBuffer` (nimvle.go, lines 127-141). -/
def SplitOpenBuffer (h : Host) (buf : Buffer) : Host × Option GoError :=
  match h.Execute (splitBatch buf) with
  | (h1, _, some err) => (h1, some err)
  | (h1, results, none) =>
    let bwin : Window :=
      match results.head? with
      | some (BatchResult.window w) => w
      | _ => 0
    h1.SetCurrentWindow bwin

/-- Method `ShowScratchBuffer` (nimvle.go, lines 175-201).  The error of
`SplitOpenBuffer` is dropped at line 197. -/
def ShowScratchBuffer (h : Host) (scratch : Buffer) (str : Option Stringer) :
    Host × Option GoError :=
  let opened := false
  match SetStringerContentToBuffer h scratch str with
  | (h1, some err) => (h1, some err)
  | (h1, none) =>
    match GetWindowList h1 with
    | (h2, _, some err) => (h2, some err)
    | (h2, winls, none) =>
      let opened := if !opened then winls.any (fun kv => kv.2 == scratch) else opened
      if !opened then ((SplitOpenBuffer h2 scratch).1, none)
      else (h2, none)

/-- Whether a request is a window-open request: a batch that holds an `:sb` command. -/
def isWindowOpen : Request → Bool
  | Request.Execute calls => calls.any (fun c =>
      match c with
      | BatchCall.Command (ExCommand.sb _) => true
      | _ => false)
  | _ => false

/-- The number of window-open requests among the requests sent. -/
def windowOpenRequests (sent : List Request) : Nat :=
  sent.countP isWindowOpen

/-- Whether some window of the host shows buffer `b`. -/
def shows (h : Host) (b : Buffer) : Bool :=
  h.windows.any (fun wb => wb.2 == b)

/-- Lines joined with one separator between consecutive lines (the closed form of the join loop). -/
def joinWith (c : Byte) : List GoString → GoString
  | [] => []
  | [l] => l
  | l :: l2 :: ls => l ++ c :: joinWith c (l2 :: ls)

/-! ## Hosts used as concrete inputs -/

/-- The text `"a\nb\nc"`. -/
def abc : GoString := [97, 10, 98, 10, 99]

/-- A plain `fmt.Stringer` whose `String` method returns `"a\nb\nc"`. -/
def abcStringer : Option Stringer := some ⟨abc, none, none⟩

/-- The text `"boom"`. -/
def boom : GoString := [98, 111, 111, 109]

/-- A `fmt.Stringer` that is also an `error`: `String` returns `"a\nb\nc"`, `Error`
returns `"boom"`. -/
def boomStringer : Stringer := ⟨abc, some boom, none⟩

/-- The lines `"a"`, `"b"`, `"c"`. -/
def abcLines : List GoString := [[97], [98], [99]]

/-- The one line `"a\nb"`, which holds a line separator. -/
def brokenLine : List GoString := [[97, 10, 98]]

/-- The name `Makefile`. -/
def makefile : GoString := [77, 97, 107, 101, 102, 105, 108, 101]

/-- The name `main.go`. -/
def mainGo : GoString := [109, 97, 105, 110, 46, 103, 111]

/-- A host with a modifiable buffer 1 named `main.go`, shown in window 1000,
and a modifiable buffer 2 named `Makefile`, shown nowhere. -/
def host0 : Host where
  connected := true
  buffers := fun b =>
    if b = 1 then some ⟨mainGo, [[]], true⟩
    else if b = 2 then some ⟨makefile, [[120]], true⟩
    else none
  curbuf := 1
  windows := [(1000, 1)]
  curwin := 1000
  vivid := true
  room := true
  sent := []

/-- As `host0`, but the window cannot be split (`E36: Not enough room`). -/
def hostNoRoom : Host :=
  { host0 with room := false }

/-- As `host0`, but `vivid#getWindowList()` is not defined. -/
def hostNoVivid : Host :=
  { host0 with vivid := false }

/-- As `host0`, but the current buffer is buffer 2. -/
def hostMakefile : Host :=
  { host0 with curbuf := 2 }



/-! ## Splitting and joining -/

theorem IndexByte_ge (s : GoString) (c : Byte) : -1 ≤ IndexByte s c := by
  induction s with
  | nil => simp [IndexByte]
  | cons x xs ih =>
    simp only [IndexByte]
    split_ifs <;> omega

theorem IndexByte_of_not_mem (s : GoString) (c : Byte) (h : c ∉ s) : IndexByte s c = -1 := by
  induction s with
  | nil => simp [IndexByte]
  | cons x xs ih =>
    have hx : ¬ x = c := fun e => h (by simp [e])
    have hxs : c ∉ xs := fun e => h (by simp [e])
    simp [IndexByte, hx, ih hxs]

theorem IndexByte_append (pre rest : GoString) (c : Byte) (h : c ∉ pre) :
    IndexByte (pre ++ c :: rest) c = (pre.length : Int) := by
  induction pre with
  | nil => simp [IndexByte]
  | cons x xs ih =>
    have hx : ¬ x = c := fun e => h (by simp [e])
    have hxs : c ∉ xs := fun e => h (by simp [e])
    have := ih hxs
    simp only [List.cons_append, IndexByte, hx, if_false, List.append_eq, this, List.length_cons]
    split_ifs with hneg
    · omega
    · simp

theorem exists_first (s : GoString) (c : Byte) (h : c ∈ s) :
    ∃ pre rest, s = pre ++ c :: rest ∧ c ∉ pre := by
  induction s with
  | nil => simp at h
  | cons x xs ih =>
    by_cases hx : x = c
    · exact ⟨[], xs, by simp [hx], by simp⟩
    · have hxs : c ∈ xs := by
        rcases List.mem_cons.1 h with e | e
        · exact absurd e.symm hx
        · exact e
      obtain ⟨pre, rest, e, hp⟩ := ih hxs
      refine ⟨x :: pre, rest, by simp [e], ?_⟩
      intro hm
      rcases List.mem_cons.1 hm with e2 | e2
      · exact hx e2.symm
      · exact hp e2

theorem genSplitLoop_of_not_mem (c : Byte) (k : Nat) (s : GoString) (h : c ∉ s) :
    genSplitLoop c k s = [s] := by
  cases k with
  | zero => rfl
  | succ k => simp [genSplitLoop, IndexByte_of_not_mem s c h]

theorem genSplitLoop_append (c : Byte) (k : Nat) (pre rest : GoString) (h : c ∉ pre) :
    genSplitLoop c (k + 1) (pre ++ c :: rest) = pre :: genSplitLoop c k rest := by
  simp [genSplitLoop, IndexByte_append pre rest c h]

theorem genSplitLoop_ne_nil (c : Byte) (k : Nat) (s : GoString) : genSplitLoop c k s ≠ [] := by
  cases k with
  | zero => simp [genSplitLoop]
  | succ k =>
    simp only [genSplitLoop]
    split_ifs <;> simp

theorem joinWith_cons (c : Byte) (l : GoString) (ls : List GoString) (h : ls ≠ []) :
    joinWith c (l :: ls) = l ++ c :: joinWith c ls := by
  cases ls with
  | nil => exact absurd rfl h
  | cons l2 t => rfl

theorem joinWith_genSplitLoop (c : Byte) (k : Nat) (s : GoString) :
    joinWith c (genSplitLoop c k s) = s := by
  induction k generalizing s with
  | zero => rfl
  | succ k ih =>
    by_cases hm : c ∈ s
    · obtain ⟨pre, rest, e, hp⟩ := exists_first s c hm
      subst e
      rw [genSplitLoop_append c k pre rest hp, joinWith_cons c pre _ (genSplitLoop_ne_nil c k rest), ih]
    · rw [genSplitLoop_of_not_mem c _ s hm]; rfl

theorem count_append_first (c : Byte) (pre rest : GoString) (h : c ∉ pre) :
    Count (pre ++ c :: rest) c = Count rest c + 1 := by
  simp [Count, List.count_eq_zero_of_not_mem h]

theorem length_genSplitLoop (c : Byte) (k : Nat) (s : GoString) (hk : Count s c ≤ k) :
    (genSplitLoop c k s).length = Count s c + 1 := by
  induction k generalizing s with
  | zero =>
    have : Count s c = 0 := by omega
    simp [genSplitLoop, this]
  | succ k ih =>
    by_cases hm : c ∈ s
    · obtain ⟨pre, rest, e, hp⟩ := exists_first s c hm
      subst e
      rw [count_append_first c pre rest hp] at hk ⊢
      rw [genSplitLoop_append c k pre rest hp, List.length_cons, ih rest (by omega)]
    · rw [genSplitLoop_of_not_mem c _ s hm]
      simp [Count, List.count_eq_zero_of_not_mem hm]

theorem not_mem_genSplitLoop (c : Byte) (k : Nat) (s : GoString) (hk : Count s c ≤ k) :
    ∀ l ∈ genSplitLoop c k s, c ∉ l := by
  induction k generalizing s with
  | zero =>
    have h0 : Count s c = 0 := by omega
    have : c ∉ s := by
      simpa [Count, List.count_eq_zero] using h0
    intro l hl
    simp [genSplitLoop] at hl
    subst hl
    exact this
  | succ k ih =>
    by_cases hm : c ∈ s
    · obtain ⟨pre, rest, e, hp⟩ := exists_first s c hm
      subst e
      rw [count_append_first c pre rest hp] at hk
      rw [genSplitLoop_append c k pre rest hp]
      intro l hl
      rcases List.mem_cons.1 hl with e | e
      · subst e; exact hp
      · exact ih rest (by omega) l e
    · rw [genSplitLoop_of_not_mem c _ s hm]
      intro l hl
      simp at hl
      subst hl
      exact hm

theorem genSplitLoop_joinWith (c : Byte) (ls : List GoString) (k : Nat) (hne : ls ≠ [])
    (hc : ∀ l ∈ ls, c ∉ l) (hk : ls.length ≤ k + 1) :
    genSplitLoop c k (joinWith c ls) = ls := by
  induction ls generalizing k with
  | nil => exact absurd rfl hne
  | cons l t ih =>
    cases t with
    | nil =>
      exact genSplitLoop_of_not_mem c k l (hc l (by simp))
    | cons l2 t2 =>
      cases k with
      | zero => simp at hk
      | succ k =>
        have hl : c ∉ l := hc l (by simp)
        show genSplitLoop c (k + 1) (l ++ c :: joinWith c (l2 :: t2)) = _
        rw [genSplitLoop_append c k l _ hl, ih k (by simp) (fun x hx => hc x (by simp [hx]))
          (by simpa using hk)]

theorem count_joinWith (c : Byte) (ls : List GoString) (hc : ∀ l ∈ ls, c ∉ l) :
    Count (joinWith c ls) c = ls.length - 1 := by
  induction ls with
  | nil => rfl
  | cons l t ih =>
    cases t with
    | nil =>
      simp [joinWith, Count, List.count_eq_zero_of_not_mem (hc l (by simp))]
    | cons l2 t2 =>
      have hl : c ∉ l := hc l (by simp)
      show Count (l ++ c :: joinWith c (l2 :: t2)) c = _
      rw [count_append_first c l _ hl, ih (fun x hx => hc x (by simp [hx]))]
      simp

theorem Count_le_length (s : GoString) (c : Byte) : Count s c ≤ s.length := by
  simpa [Count] using List.count_le_length c s

theorem Split_eq (s : GoString) (c : Byte) : Split s c = genSplitLoop c (Count s c) s := by
  have := Count_le_length s c
  simp only [Split]
  rw [if_neg (by omega)]
  simp

theorem rangeLoop_eq (len : Int) (i : Nat) (lines : List GoString) (content : GoString)
    (h : len = (i : Int) + lines.length) :
    rangeLoop len i lines content = content ++ joinWith newline lines := by
  induction lines generalizing i content with
  | nil => simp [rangeLoop, joinWith]
  | cons l t ih =>
    cases t with
    | nil =>
      have : ¬ ((i : Int) < len - 1) := by simp at h; omega
      simp [rangeLoop, joinWith, this]
    | cons l2 t2 =>
      have hlt : (i : Int) < len - 1 := by simp at h; omega
      rw [rangeLoop]
      simp only [hlt, if_true]
      rw [ih (i + 1) _ (by simp at h ⊢; omega)]
      simp [joinWith]

theorem toText_eq (lines : List GoString) : toText lines = joinWith newline lines := by
  simp [toText, rangeLoop_eq (lines.length : Int) 0 lines [] (by simp)]

theorem toText_fromText_all (T : GoString) : toText (fromText T) = T := by
  rw [toText_eq, fromText, Split_eq, joinWith_genSplitLoop]


/-! ## The host calls -/

theorem copy_foldl (acc lines : List GoString) :
    lines.foldl (fun acc c => acc ++ [c]) acc = acc ++ lines := by
  induction lines generalizing acc with
  | nil => simp
  | cons l t ih => simp [ih]

theorem setContentToBuffer_eq (h : Host) (buf : Buffer) (lines : List GoString) :
    setContentToBuffer h buf lines = h.SetBufferLines buf lines := by
  simp [setContentToBuffer, copy_foldl]

theorem SetBufferLines_sent (h : Host) (buf : Buffer) (ls : List GoString) :
    (h.SetBufferLines buf ls).1.sent = h.sent ++ [Request.SetBufferLines buf 0 (-1) true ls] := by
  unfold Host.SetBufferLines
  simp only [Host.log]
  split_ifs
  · split
    · rfl
    · split_ifs <;> rfl
  · rfl

theorem SetBufferLines_frame (h : Host) (buf : Buffer) (ls : List GoString) :
    (h.SetBufferLines buf ls).1.windows = h.windows ∧
    (h.SetBufferLines buf ls).1.connected = h.connected ∧
    (h.SetBufferLines buf ls).1.vivid = h.vivid ∧
    (h.SetBufferLines buf ls).1.room = h.room ∧
    (h.SetBufferLines buf ls).1.curwin = h.curwin := by
  unfold Host.SetBufferLines
  simp only [Host.log]
  split_ifs
  · split
    · simp
    · split_ifs <;> simp
  · simp

theorem SetBufferLines_ok (h : Host) (buf : Buffer) (ls : List GoString)
    (hok : (h.SetBufferLines buf ls).2 = none) :
    h.connected = true ∧
    (∃ bs, h.buffers buf = some bs ∧ bs.modifiable = true) ∧
    ((h.SetBufferLines buf ls).1.buffers buf).map (fun bs => bs.lines) = some ls := by
  unfold Host.SetBufferLines at hok ⊢
  simp only [Host.log] at hok ⊢
  by_cases hc : h.connected = true
  · simp only [hc, if_true] at hok ⊢
    cases hb : h.buffers buf with
    | none => simp [hb] at hok
    | some bs =>
      simp only [hb] at hok ⊢
      by_cases hm : bs.modifiable = true
      · simp [hm]
      · simp [hm] at hok
  · simp [hc] at hok

theorem SetBufferLines_eq (h : Host) (buf : Buffer) (ls : List GoString)
    (hc : h.connected = true) (bs : BufferState) (hb : h.buffers buf = some bs)
    (hm : bs.modifiable = true) :
    h.SetBufferLines buf ls =
      ({ h with
          sent := h.sent ++ [Request.SetBufferLines buf 0 (-1) true ls],
          buffers := fun b => if b = buf then some { bs with lines := ls } else h.buffers b },
        none) := by
  unfold Host.SetBufferLines
  simp [Host.log, hc, hb, hm]

theorem GetWindowList_fst (h : Host) :
    (GetWindowList h).1 = h.log (Request.Eval VimExpr.getWindowList) := by
  unfold GetWindowList Host.Eval
  simp only [Host.log]
  split_ifs <;> rfl

theorem GetWindowList_ok (h : Host) (hok : (GetWindowList h).2.2 = none) :
    h.connected = true ∧ h.vivid = true ∧
    (GetWindowList h).2.1 = h.windows.map (fun wb => (Host.windowKey wb.1, wb.2)) := by
  unfold GetWindowList Host.Eval at hok ⊢
  simp only [Host.log] at hok ⊢
  by_cases hc : h.connected = true
  · by_cases hv : h.vivid = true
    · simp [hc, hv]
    · simp [hc, hv] at hok
  · simp [hc] at hok

theorem GetWindowList_eq (h : Host) (hc : h.connected = true) (hv : h.vivid = true) :
    GetWindowList h =
      ({ h with sent := h.sent ++ [Request.Eval VimExpr.getWindowList] },
        h.windows.map (fun wb => (Host.windowKey wb.1, wb.2)), none) := by
  unfold GetWindowList Host.Eval
  simp [Host.log, hc, hv]

theorem any_windowList (ws : List (Window × Buffer)) (b : Buffer) :
    (ws.map (fun wb => (Host.windowKey wb.1, wb.2))).any (fun kv => kv.2 == b) =
      ws.any (fun wb => wb.2 == b) := by
  induction ws with
  | nil => rfl
  | cons w t ih => simp [List.any_cons, ih]

theorem Execute_split_eq (h : Host) (b : Buffer) (hc : h.connected = true) (bs : BufferState)
    (hb : h.buffers b = some bs) (hr : h.room = true) :
    h.Execute (splitBatch b) =
      ({ h with
          sent := h.sent ++ [Request.Execute (splitBatch b)],
          windows := h.windows ++ [(h.freshWindow, b)],
          curwin := h.freshWindow },
        [BatchResult.window h.curwin, BatchResult.unit, BatchResult.window h.freshWindow,
          BatchResult.unit], none) := by
  unfold Host.Execute
  simp [Host.log, hc, splitBatch, Host.callAtomic, Host.call, hb, hr, Host.freshWindow]

theorem Execute_split_ok (h : Host) (b : Buffer)
    (hok : (h.Execute (splitBatch b)).2.2 = none) :
    h.connected = true ∧ (∃ bs, h.buffers b = some bs) ∧ h.room = true := by
  unfold Host.Execute at hok
  simp only [Host.log] at hok
  by_cases hc : h.connected = true
  · cases hb : h.buffers b with
    | none => simp [hc, splitBatch, Host.callAtomic, Host.call, hb] at hok
    | some bs =>
      by_cases hr : h.room = true
      · exact ⟨hc, ⟨bs, rfl⟩, hr⟩
      · simp [hc, splitBatch, Host.callAtomic, Host.call, hb, hr] at hok
  · simp [hc] at hok

theorem SplitOpenBuffer_ok (h : Host) (b : Buffer) (hok : (SplitOpenBuffer h b).2 = none) :
    (h.Execute (splitBatch b)).2.2 = none := by
  unfold SplitOpenBuffer at hok
  cases he : (h.Execute (splitBatch b)) with
  | mk h1 r =>
    cases r with
    | mk rs e =>
      cases e with
      | none => rfl
      | some err => simp [he] at hok


theorem SetCurrentWindow_frame (h : Host) (w : Window) :
    (h.SetCurrentWindow w).1.sent = h.sent ++ [Request.SetCurrentWindow w] ∧
    (h.SetCurrentWindow w).1.windows = h.windows ∧
    (h.SetCurrentWindow w).1.connected = h.connected ∧
    (h.SetCurrentWindow w).1.vivid = h.vivid ∧
    (h.SetCurrentWindow w).1.buffers = h.buffers := by
  unfold Host.SetCurrentWindow
  simp only [Host.log]
  split_ifs <;> simp

theorem SplitOpenBuffer_state (h : Host) (b : Buffer) (hc : h.connected = true)
    (bs : BufferState) (hb : h.buffers b = some bs) (hr : h.room = true) :
    (SplitOpenBuffer h b).1.sent =
      h.sent ++ [Request.Execute (splitBatch b), Request.SetCurrentWindow h.curwin] ∧
    (SplitOpenBuffer h b).1.windows = h.windows ++ [(h.freshWindow, b)] ∧
    (SplitOpenBuffer h b).1.connected = true ∧
    (SplitOpenBuffer h b).1.vivid = h.vivid ∧
    (SplitOpenBuffer h b).1.buffers = h.buffers := by
  unfold SplitOpenBuffer
  rw [Execute_split_eq h b hc bs hb hr]
  simp only [List.head?_cons]
  obtain ⟨h1, h2, h3, h4, h5⟩ := SetCurrentWindow_frame
    { h with
      sent := h.sent ++ [Request.Execute (splitBatch b)],
      windows := h.windows ++ [(h.freshWindow, b)],
      curwin := h.freshWindow } h.curwin
  refine ⟨?_, h2, ?_, h4, h5⟩
  · rw [h1]; simp
  · rw [h3]; exact hc

theorem shows_append (ws : List (Window × Buffer)) (w : Window) (b : Buffer) :
    (ws ++ [(w, b)]).any (fun wb => wb.2 == b) = true := by
  simp

theorem windowOpenRequests_append (xs ys : List Request) :
    windowOpenRequests (xs ++ ys) = windowOpenRequests xs + windowOpenRequests ys := by
  simp [windowOpenRequests]

theorem isWindowOpen_split (b : Buffer) : isWindowOpen (Request.Execute (splitBatch b)) = true := by
  simp [isWindowOpen, splitBatch]

/-- State-side form of a call on a buffer that some window shows. -/
theorem show_visible (h : Host) (b : Buffer) (s : Option Stringer) (hc : h.connected = true)
    (bs : BufferState) (hb : h.buffers b = some bs) (hm : bs.modifiable = true)
    (hv : h.vivid = true) (hs : shows h b = true) :
    ShowScratchBuffer h b s =
      ({ h with
          sent := h.sent ++ [Request.SetBufferLines b 0 (-1) true (Split (fmtSprint s) newline),
            Request.Eval VimExpr.getWindowList],
          buffers := fun x =>
            if x = b then some { bs with lines := Split (fmtSprint s) newline } else h.buffers x },
        none) := by
  unfold ShowScratchBuffer SetStringerContentToBuffer
  rw [setContentToBuffer_eq, SetBufferLines_eq h b _ hc bs hb hm]
  simp only []
  rw [GetWindowList_eq]
  · simp only [any_windowList]
    unfold shows at hs
    simp [hs]
  · exact hc
  · exact hv

/-- State-side form of a call on a buffer that no window shows. -/
theorem show_hidden (h : Host) (b : Buffer) (s : Option Stringer) (hc : h.connected = true)
    (bs : BufferState) (hb : h.buffers b = some bs) (hm : bs.modifiable = true)
    (hv : h.vivid = true) (hs : shows h b = false) :
    ShowScratchBuffer h b s =
      ((SplitOpenBuffer { h with
          sent := h.sent ++ [Request.SetBufferLines b 0 (-1) true (Split (fmtSprint s) newline),
            Request.Eval VimExpr.getWindowList],
          buffers := fun x =>
            if x = b then some { bs with lines := Split (fmtSprint s) newline } else h.buffers x }
          b).1, none) := by
  unfold ShowScratchBuffer SetStringerContentToBuffer
  rw [setContentToBuffer_eq, SetBufferLines_eq h b _ hc bs hb hm]
  simp only []
  rw [GetWindowList_eq]
  · simp only [any_windowList]
    unfold shows at hs
    simp [hs]
  · exact hc
  · exact hv


/-- The host law behind the scratch-buffer claims: a split that succeeds leaves a window
showing the buffer. -/
theorem split_shows (h : Host) (b : Buffer) (hok : (h.Execute (splitBatch b)).2.2 = none) :
    shows (SplitOpenBuffer h b).1 b = true := by
  obtain ⟨hc, ⟨bs, hb⟩, hr⟩ := Execute_split_ok h b hok
  obtain ⟨_, e2, _, _, _⟩ := SplitOpenBuffer_state h b hc bs hb hr
  unfold shows
  rw [e2]
  exact shows_append _ _ _

/-- Writing the lines of a buffer opens and closes no window. -/
theorem shows_SetBufferLines (h : Host) (buf b : Buffer) (ls : List GoString) :
    shows (h.SetBufferLines buf ls).1 b = shows h b := by
  unfold shows
  rw [(SetBufferLines_frame h buf ls).1]

/-- A window list that is fetched lists a window on every buffer some window shows. -/
theorem listed_of_shows (h : Host) (b : Buffer) (hs : shows h b = true)
    (hl : (GetWindowList h).2.2 = none) :
    (GetWindowList h).2.1.any (fun kv => kv.2 == b) = true := by
  obtain ⟨_, _, e⟩ := GetWindowList_ok h hl
  rw [e, any_windowList]
  exact hs

theorem Split_ne_nil (s : GoString) (c : Byte) : Split s c ≠ [] := by
  rw [Split_eq]; exact genSplitLoop_ne_nil c _ s

theorem Split_of_not_mem (s : GoString) (c : Byte) (h : c ∉ s) : Split s c = [s] := by
  rw [Split_eq]; exact genSplitLoop_of_not_mem c _ s h

theorem sliceIndex_last {α : Type} (xs : List α) (hne : xs ≠ []) :
    sliceIndex xs ((xs.length : Int) - 1) = xs.getLast? := by
  have hpos : 0 < xs.length := List.length_pos.2 hne
  unfold sliceIndex
  rw [if_pos (by omega)]
  have : ((xs.length : Int) - 1).toNat = xs.length - 1 := by omega
  rw [this, List.getLast?_eq_getElem?]

theorem getLast?_cons_ne {α : Type} (a : α) (l : List α) (h : l ≠ []) :
    (a :: l).getLast? = l.getLast? := by
  cases l with
  | nil => exact absurd rfl h
  | cons b t => simp

theorem getLast_genSplitLoop (c : Byte) (k : Nat) (s ext : GoString) (hk : Count s c ≤ k)
    (hm : c ∈ s) (hl : (genSplitLoop c k s).getLast? = some ext) :
    ∃ pre, s = pre ++ c :: ext := by
  induction k generalizing s with
  | zero =>
    have h0 : Count s c = 0 := by omega
    have : c ∉ s := by simpa [Count, List.count_eq_zero] using h0
    exact absurd hm this
  | succ k ih =>
    obtain ⟨p, rest, e, hp⟩ := exists_first s c hm
    subst e
    rw [count_append_first c p rest hp] at hk
    rw [genSplitLoop_append c k p rest hp,
      getLast?_cons_ne _ _ (genSplitLoop_ne_nil c k rest)] at hl
    by_cases hr : c ∈ rest
    · obtain ⟨q, e⟩ := ih rest (by omega) hr hl
      exact ⟨p ++ c :: q, by rw [e]; simp⟩
    · rw [genSplitLoop_of_not_mem c k rest hr] at hl
      simp at hl
      exact ⟨p, by rw [hl]⟩


theorem CurrentBuffer_ok (h : Host) (buf : Buffer) (hb : h.CurrentBuffer.2 = (buf, none)) :
    h.CurrentBuffer = (h.CurrentBuffer.1, buf, none) := by
  rw [← hb]

theorem extension_eq (h : Host) (buf : Buffer) (name : GoString)
    (hb : h.CurrentBuffer.2 = (buf, none))
    (hn : (h.CurrentBuffer.1.BufferName buf).2 = (name, none)) :
    (CurrentBufferFilenameExtension h).map (fun r => r.2) =
      (Split name dot).getLast?.map (fun ext => (ext, none)) := by
  unfold CurrentBufferFilenameExtension
  rw [CurrentBuffer_ok h buf hb]
  simp only []
  have hn2 : h.CurrentBuffer.1.BufferName buf = ((h.CurrentBuffer.1.BufferName buf).1, name, none) := by
    rw [← hn]
  rw [hn2]
  simp only []
  rw [sliceIndex_last _ (Split_ne_nil name dot)]
  cases (Split name dot).getLast? <;> rfl

theorem extension_isSome (h : Host) : (CurrentBufferFilenameExtension h).isSome = true := by
  unfold CurrentBufferFilenameExtension
  split
  · rfl
  · split
    · rfl
    · rename_i bufferName _
      rw [sliceIndex_last _ (Split_ne_nil bufferName dot)]
      cases hl : (Split bufferName dot).getLast? with
      | none => exact absurd (List.getLast?_eq_none_iff.1 hl) (Split_ne_nil bufferName dot)
      | some x => rfl

/-! ## Round trips between lines and text -/

/-- C1, refuted as stated: splitting the joined text does not give every sequence of
lines back.  The empty sequence joins to the empty text, which splits to one empty
line; a line that holds a line separator comes back as two lines. -/
theorem C1_roundtrip_fails :
    fromText (toText []) = [[]] ∧ fromText (toText []) ≠ [] ∧
    fromText (toText brokenLine) = [[97], [98]] ∧ fromText (toText brokenLine) ≠ brokenLine := by
  decide

/-- C1, amended: for every non-empty sequence of lines `L` none of which contains the
line separator, splitting the joined text gives `L` back. -/
theorem C1_fromText_toText (L : List GoString) (hne : L ≠ [])
    (hc : ∀ l ∈ L, newline ∉ l) : fromText (toText L) = L := by
  rw [toText_eq, fromText, Split_eq, count_joinWith newline L hc]
  exact genSplitLoop_joinWith newline L _ hne hc (by omega)

/-- C1, amended, at the lines `"a"`, `"b"`, `"c"`. -/
theorem C1_fromText_toText_witness :
    abcLines ≠ [] ∧ (∀ l ∈ abcLines, newline ∉ l) ∧ fromText (toText abcLines) = abcLines :=
  ⟨by decide, by decide, C1_fromText_toText abcLines (by decide) (by decide)⟩

/-- C2: for every text `T` that does not end in the line separator, joining the split
text gives `T` back. -/
theorem C2_toText_fromText (T : GoString) (_h : T.getLast? ≠ some newline) :
    toText (fromText T) = T := by
  rw [toText_eq, fromText, Split_eq]
  exact joinWith_genSplitLoop newline _ T

/-- C2 at the text `"a\nb\nc"`, which splits to `"a"`, `"b"`, `"c"` and rejoins to itself. -/
theorem C2_toText_fromText_witness :
    abc.getLast? ≠ some newline ∧ fromText abc = abcLines ∧ toText abcLines = abc ∧
    toText (fromText abc) = abc :=
  ⟨by decide, by decide, by decide, C2_toText_fromText abc (by decide)⟩

/-- C10: the line list `SetContentToBuffer` sends to the host is `strings.Split(content, "\n")`;
it is non-empty, has one entry more than `content` has line separators, and no entry
contains a line separator; the empty content is sent as the single empty line.  The older
copy of the method at the root of the repository does the same. -/
theorem C10_lines_sent (h : Host) (buf : Buffer) (content : GoString) :
    (SetContentToBuffer h buf content).1.sent =
      h.sent ++ [Request.SetBufferLines buf 0 (-1) true (Split content newline)] ∧
    Split content newline ≠ [] ∧
    (Split content newline).length = Count content newline + 1 ∧
    (∀ l ∈ Split content newline, newline ∉ l) ∧
    Split [] newline = [[]] ∧
    SetContentToBufferRoot h buf content = SetContentToBuffer h buf content := by
  refine ⟨?_, Split_ne_nil content newline, ?_, ?_, by decide, rfl⟩
  · unfold SetContentToBuffer
    rw [setContentToBuffer_eq, SetBufferLines_sent, fromText]
  · rw [Split_eq]; exact length_genSplitLoop newline _ content (le_refl _)
  · rw [Split_eq]; exact not_mem_genSplitLoop newline _ content (le_refl _)

/-! ## Writing and reading a buffer -/

/-- C3: in the host model, where `SetBufferLines(buf, 0, -1)` replaces all lines of `buf`
and `BufferLines(buf, 0, -1)` returns them, a successful `SetContentToBuffer(buf, content)`
followed immediately by `GetContentFromBuffer(buf)` returns exactly `content`, with no error. -/
theorem C3_write_then_read (h : Host) (buf : Buffer) (content : GoString)
    (hok : (SetContentToBuffer h buf content).2 = none) :
    (GetContentFromBuffer (SetContentToBuffer h buf content).1 buf).2 = (content, none) := by
  unfold SetContentToBuffer at hok ⊢
  rw [setContentToBuffer_eq] at hok ⊢
  obtain ⟨hc, ⟨bs, hb, hm⟩, _⟩ := SetBufferLines_ok h buf _ hok
  rw [SetBufferLines_eq h buf _ hc bs hb hm]
  unfold GetContentFromBuffer Host.BufferLines
  simp [Host.log, hc, toText_fromText_all]

/-- C3 at buffer 2 of `host0` and the text `"a\nb\nc"`. -/
theorem C3_write_then_read_witness :
    (SetContentToBuffer host0 2 abc).2 = none ∧
    (GetContentFromBuffer (SetContentToBuffer host0 2 abc).1 2).2 = (abc, none) :=
  ⟨by decide, C3_write_then_read host0 2 abc (by decide)⟩

/-! ## The file name extension -/

/-- C7: when the current buffer's name contains a `"."`, `CurrentBufferFilenameExtension`
returns, without error, the part of the name after its last `"."`: the result contains no
`"."` and the name is some text, then `"."`, then the result. -/
theorem C7_extension (h : Host) (buf : Buffer) (name : GoString)
    (hb : h.CurrentBuffer.2 = (buf, none))
    (hn : (h.CurrentBuffer.1.BufferName buf).2 = (name, none))
    (hdot : dot ∈ name) :
    ∃ ext pre,
      (CurrentBufferFilenameExtension h).map (fun r => r.2) = some (ext, none) ∧
      dot ∉ ext ∧ name = pre ++ dot :: ext := by
  rw [extension_eq h buf name hb hn]
  cases hl : (Split name dot).getLast? with
  | none => exact absurd (List.getLast?_eq_none_iff.1 hl) (Split_ne_nil name dot)
  | some ext =>
    rw [Split_eq] at hl
    obtain ⟨pre, e⟩ := getLast_genSplitLoop dot _ name ext (le_refl _) hdot hl
    refine ⟨ext, pre, rfl, ?_, e⟩
    exact not_mem_genSplitLoop dot _ name (le_refl _) ext (List.mem_of_getLast?_eq_some hl)

/-- C7 at `host0`, whose current buffer is named `main.go`: the extension is `go`. -/
theorem C7_extension_witness :
    host0.CurrentBuffer.2 = (1, none) ∧
    (host0.CurrentBuffer.1.BufferName 1).2 = (mainGo, none) ∧ dot ∈ mainGo ∧
    (CurrentBufferFilenameExtension host0).map (fun r => r.2) = some ([103, 111], none) ∧
    ∃ ext pre,
      (CurrentBufferFilenameExtension host0).map (fun r => r.2) = some (ext, none) ∧
      dot ∉ ext ∧ mainGo = pre ++ dot :: ext :=
  ⟨by decide, by decide, by decide, by decide,
    C7_extension host0 1 mainGo (by decide) (by decide) (by decide)⟩

/-- C9: for every buffer name the index `len(strings.Split(name, ".")) - 1` is in range
of `strings.Split(name, ".")`, so `CurrentBufferFilenameExtension` never panics on the
indexing; and when the name of the current buffer contains no `"."`, the extension
returned is the whole name. -/
theorem C9_index_in_range (h : Host) (buf : Buffer) (name : GoString) :
    (0 ≤ ((Split name dot).length : Int) - 1 ∧
      ((Split name dot).length : Int) - 1 < ((Split name dot).length : Int)) ∧
    (sliceIndex (Split name dot) (((Split name dot).length : Int) - 1)).isSome = true ∧
    (CurrentBufferFilenameExtension h).isSome = true ∧
    (h.CurrentBuffer.2 = (buf, none) →
      (h.CurrentBuffer.1.BufferName buf).2 = (name, none) → dot ∉ name →
      (CurrentBufferFilenameExtension h).map (fun r => r.2) = some (name, none)) := by
  have hpos : 0 < (Split name dot).length := List.length_pos.2 (Split_ne_nil name dot)
  refine ⟨⟨by omega, by omega⟩, ?_, extension_isSome h, ?_⟩
  · rw [sliceIndex_last _ (Split_ne_nil name dot)]
    cases hl : (Split name dot).getLast? with
    | none => exact absurd (List.getLast?_eq_none_iff.1 hl) (Split_ne_nil name dot)
    | some x => rfl
  · intro hb hn hdot
    rw [extension_eq h buf name hb hn, Split_of_not_mem name dot hdot]
    rfl

/-- C9 at `hostMakefile`, whose current buffer is named `Makefile`, and at the empty name. -/
theorem C9_index_in_range_witness :
    dot ∉ makefile ∧
    (CurrentBufferFilenameExtension hostMakefile).map (fun r => r.2) = some (makefile, none) ∧
    (sliceIndex (Split [] dot) (((Split [] dot).length : Int) - 1)) = some [] :=
  ⟨by decide,
    (C9_index_in_range hostMakefile 2 makefile).2.2.2 (by decide) (by decide) (by decide),
    by decide⟩

theorem ShowScratchBuffer_write_error (h : Host) (b : Buffer) (s : Option Stringer) (e : GoError)
    (hw : (SetStringerContentToBuffer h b s).2 = some e) :
    (ShowScratchBuffer h b s).2 = some e := by
  unfold ShowScratchBuffer
  cases hr : SetStringerContentToBuffer h b s with
  | mk h1 r =>
    rw [hr] at hw
    simp only [] at hw
    subst hw
    rfl

theorem ShowScratchBuffer_fetch_error (h : Host) (b : Buffer) (s : Option Stringer) (e : GoError)
    (hw : (SetStringerContentToBuffer h b s).2 = none)
    (hl : (GetWindowList (SetStringerContentToBuffer h b s).1).2.2 = some e) :
    (ShowScratchBuffer h b s).2 = some e := by
  unfold ShowScratchBuffer
  cases hr : SetStringerContentToBuffer h b s with
  | mk h1 r =>
    rw [hr] at hw hl
    simp only [] at hw hl
    subst hw
    simp only []
    cases hg : GetWindowList h1 with
    | mk h2 p =>
      cases p with
      | mk winls oe =>
        rw [hg] at hl
        simp only [] at hl
        subst hl
        rfl

/-! ## Showing a scratch buffer -/

/-- C4, the failing input: on `hostNoRoom` no window shows buffer 2 and the window cannot
be split.  The content write and the window-list fetch succeed, `SplitOpenBuffer` returns
an error, and `ShowScratchBuffer` returns nil all the same. -/
theorem C4_split_error_dropped :
    (SetStringerContentToBuffer hostNoRoom 2 abcStringer).2 = none ∧
    (GetWindowList (SetStringerContentToBuffer hostNoRoom 2 abcStringer).1).2.2 = none ∧
    (SplitOpenBuffer (GetWindowList (SetStringerContentToBuffer hostNoRoom 2 abcStringer).1).1 2).2 =
      some GoError.noRoom ∧
    (ShowScratchBuffer hostNoRoom 2 abcStringer).1.sent =
      [Request.SetBufferLines 2 0 (-1) true abcLines, Request.Eval VimExpr.getWindowList,
        Request.Execute (splitBatch 2)] ∧
    (ShowScratchBuffer hostNoRoom 2 abcStringer).2 = none := by
  decide

/-- Formatting by `String`: `fmt.Sprint` returns `String()` for a non-nil operand that is
neither an `error` nor a `fmt.Formatter`. -/
theorem fmtSprint_plain (v : Stringer) (he : v.Error = none) (hf : v.Format = none) :
    fmtSprint (some v) = v.String := by
  simp [fmtSprint, he, hf]

/-- When the content write and the window-list fetch of `ShowScratchBuffer(b, s)` succeed
and the window list maps some window to `b`, the call returns nil, buffer `b` holds the
lines of `fmt.Sprint(s)`, and the only requests sent are that write and the fetch: no
window-open request is issued. -/
theorem ShowScratchBuffer_visible (h : Host) (b : Buffer) (s : Option Stringer)
    (hw : (SetStringerContentToBuffer h b s).2 = none)
    (hl : (GetWindowList (SetStringerContentToBuffer h b s).1).2.2 = none)
    (hb : ∃ k, (k, b) ∈ (GetWindowList (SetStringerContentToBuffer h b s).1).2.1) :
    (ShowScratchBuffer h b s).2 = none ∧
    ((ShowScratchBuffer h b s).1.buffers b).map (fun bs => bs.lines) =
      some (Split (fmtSprint s) newline) ∧
    (ShowScratchBuffer h b s).1.sent =
      h.sent ++ [Request.SetBufferLines b 0 (-1) true (Split (fmtSprint s) newline),
        Request.Eval VimExpr.getWindowList] ∧
    windowOpenRequests (ShowScratchBuffer h b s).1.sent = windowOpenRequests h.sent := by
  unfold SetStringerContentToBuffer at hw hl hb
  rw [setContentToBuffer_eq] at hw hl hb
  obtain ⟨hc, ⟨bs, hbs, hm⟩, _⟩ := SetBufferLines_ok h b _ hw
  obtain ⟨_, hv, hlist⟩ := GetWindowList_ok _ hl
  obtain ⟨hwin, _, hviv, _, _⟩ := SetBufferLines_frame h b (Split (fmtSprint s) newline)
  rw [hviv] at hv
  obtain ⟨k, hk⟩ := hb
  rw [hlist, hwin] at hk
  have hs : shows h b = true := by
    unfold shows
    rw [List.any_eq_true]
    obtain ⟨wb, hwb, e⟩ := List.mem_map.1 hk
    refine ⟨wb, hwb, ?_⟩
    have : wb.2 = b := congrArg Prod.snd e
    simp [this]
  rw [show_visible h b s hc bs hbs hm hv hs]
  refine ⟨rfl, by simp, rfl, ?_⟩
  simp [windowOpenRequests, isWindowOpen]

/-- The same for a plain `fmt.Stringer`, neither an `error` nor a `fmt.Formatter`: buffer
`b` holds the lines of `s.String()` and no window-open request is issued. -/
theorem ShowScratchBuffer_visible_plain (h : Host) (b : Buffer) (v : Stringer)
    (he : v.Error = none) (hf : v.Format = none)
    (hw : (SetStringerContentToBuffer h b (some v)).2 = none)
    (hl : (GetWindowList (SetStringerContentToBuffer h b (some v)).1).2.2 = none)
    (hb : ∃ k, (k, b) ∈ (GetWindowList (SetStringerContentToBuffer h b (some v)).1).2.1) :
    (ShowScratchBuffer h b (some v)).2 = none ∧
    ((ShowScratchBuffer h b (some v)).1.buffers b).map (fun bs => bs.lines) =
      some (Split v.String newline) ∧
    windowOpenRequests (ShowScratchBuffer h b (some v)).1.sent = windowOpenRequests h.sent := by
  obtain ⟨h1, h2, _, h4⟩ := ShowScratchBuffer_visible h b (some v) hw hl hb
  rw [fmtSprint_plain v he hf] at h2
  exact ⟨h1, h2, h4⟩

/-- C5, the failing input: window 1000 of `host0` shows buffer 1 and every host call
succeeds.  For a `fmt.Stringer` that is also an `error`, with `String() = "a\nb\nc"` and
`Error() = "boom"`, `ShowScratchBuffer` returns nil and issues no window-open request, but
buffer 1 receives the line `boom`, the text of `Error()`, not the lines of `s.String()`;
a nil `fmt.Stringer` is written as the line `<nil>`. -/
theorem C5_error_text_written :
    boomStringer.String = abc ∧ boomStringer.Error = some boom ∧
    (SetStringerContentToBuffer host0 1 (some boomStringer)).2 = none ∧
    (GetWindowList (SetStringerContentToBuffer host0 1 (some boomStringer)).1).2.2 = none ∧
    (GetWindowList (SetStringerContentToBuffer host0 1 (some boomStringer)).1).2.1.any
      (fun kv => kv.2 == 1) = true ∧
    (ShowScratchBuffer host0 1 (some boomStringer)).2 = none ∧
    windowOpenRequests (ShowScratchBuffer host0 1 (some boomStringer)).1.sent = 0 ∧
    (ShowScratchBuffer host0 1 (some boomStringer)).1.sent =
      [Request.SetBufferLines 1 0 (-1) true [boom], Request.Eval VimExpr.getWindowList] ∧
    ((ShowScratchBuffer host0 1 (some boomStringer)).1.buffers 1).map (fun bs => bs.lines) =
      some [boom] ∧
    Split boomStringer.String newline = abcLines ∧
    ((ShowScratchBuffer host0 1 (some boomStringer)).1.buffers 1).map (fun bs => bs.lines) ≠
      some (Split boomStringer.String newline) ∧
    ((ShowScratchBuffer host0 1 none).1.buffers 1).map (fun bs => bs.lines) =
      some [nilAngleString] := by
  decide

/-- C6, refuted as stated: no window of `hostNoVivid` or of `hostNoRoom` shows buffer 2.
On `hostNoVivid` the window-list fetch fails, both calls return its error and no
window-open request is issued at all; on `hostNoRoom` the split fails, the buffer stays
hidden and each of the two calls issues a window-open request. -/
theorem C6_one_split_fails :
    (shows hostNoVivid 2 = false ∧
      (ShowScratchBuffer hostNoVivid 2 abcStringer).2 = some GoError.unknownFunction ∧
      windowOpenRequests
        (ShowScratchBuffer (ShowScratchBuffer hostNoVivid 2 abcStringer).1 2 abcStringer).1.sent = 0) ∧
    (shows hostNoRoom 2 = false ∧
      windowOpenRequests (ShowScratchBuffer hostNoRoom 2 abcStringer).1.sent = 1 ∧
      windowOpenRequests
        (ShowScratchBuffer (ShowScratchBuffer hostNoRoom 2 abcStringer).1 2 abcStringer).1.sent = 2) := by
  decide

/-- C6, amended: starting from a host state where no window shows `b`, and in which the
content write, the window-list fetch and the split of the first `ShowScratchBuffer(b, s)`
succeed, the first call issues exactly one window-open request, after it a window shows
`b`, and the second call returns nil and issues none: one window-open request in total. -/
theorem C6_two_calls_one_split (h : Host) (b : Buffer) (s : Option Stringer)
    (hno : shows h b = false)
    (hw : (SetStringerContentToBuffer h b s).2 = none)
    (hl : (GetWindowList (SetStringerContentToBuffer h b s).1).2.2 = none)
    (hs : (SplitOpenBuffer (GetWindowList (SetStringerContentToBuffer h b s).1).1 b).2 = none) :
    windowOpenRequests (ShowScratchBuffer h b s).1.sent = windowOpenRequests h.sent + 1 ∧
    shows (ShowScratchBuffer h b s).1 b = true ∧
    (ShowScratchBuffer (ShowScratchBuffer h b s).1 b s).2 = none ∧
    windowOpenRequests (ShowScratchBuffer (ShowScratchBuffer h b s).1 b s).1.sent =
      windowOpenRequests (ShowScratchBuffer h b s).1.sent ∧
    windowOpenRequests (ShowScratchBuffer (ShowScratchBuffer h b s).1 b s).1.sent =
      windowOpenRequests h.sent + 1 := by
  unfold SetStringerContentToBuffer at hw hl hs
  rw [setContentToBuffer_eq] at hw hl hs
  obtain ⟨hc, ⟨bs, hbs, hm⟩, _⟩ := SetBufferLines_ok h b _ hw
  obtain ⟨_, hv, _⟩ := GetWindowList_ok _ hl
  obtain ⟨_, _, hviv, _, _⟩ := SetBufferLines_frame h b (Split (fmtSprint s) newline)
  rw [hviv] at hv
  have hex := SplitOpenBuffer_ok _ b hs
  rw [GetWindowList_fst, SetBufferLines_eq h b _ hc bs hbs hm] at hex
  obtain ⟨_, _, hr⟩ := Execute_split_ok _ b hex
  have hr : h.room = true := hr
  rw [show_hidden h b s hc bs hbs hm hv hno]
  obtain ⟨e1, e2, e3, e4, e5⟩ := SplitOpenBuffer_state
    { h with
      sent := h.sent ++ [Request.SetBufferLines b 0 (-1) true (Split (fmtSprint s) newline),
        Request.Eval VimExpr.getWindowList],
      buffers := fun x =>
        if x = b then some { bs with lines := Split (fmtSprint s) newline } else h.buffers x }
    b hc { bs with lines := Split (fmtSprint s) newline } (by simp) hr
  have hshow : shows (SplitOpenBuffer
      { h with
        sent := h.sent ++ [Request.SetBufferLines b 0 (-1) true (Split (fmtSprint s) newline),
          Request.Eval VimExpr.getWindowList],
        buffers := fun x =>
          if x = b then some { bs with lines := Split (fmtSprint s) newline } else h.buffers x }
      b).1 b = true := by
    unfold shows
    rw [e2]
    exact shows_append _ _ _
  have hfirst : windowOpenRequests (SplitOpenBuffer
      { h with
        sent := h.sent ++ [Request.SetBufferLines b 0 (-1) true (Split (fmtSprint s) newline),
          Request.Eval VimExpr.getWindowList],
        buffers := fun x =>
          if x = b then some { bs with lines := Split (fmtSprint s) newline } else h.buffers x }
      b).1.sent = windowOpenRequests h.sent + 1 := by
    rw [e1]
    simp [windowOpenRequests, isWindowOpen, splitBatch]
  have hsecond := show_visible _ b s e3 { bs with lines := Split (fmtSprint s) newline }
    (by rw [e5]; simp) hm (by rw [e4]; exact hv) hshow
  refine ⟨hfirst, hshow, ?_, ?_, ?_⟩
  · rw [hsecond]
  · rw [hsecond]
    simp [windowOpenRequests, isWindowOpen]
  · rw [hsecond, ← hfirst]
    simp [windowOpenRequests, isWindowOpen]

/-- C6, amended, at buffer 2 of `host0`, which no window shows. -/
theorem C6_two_calls_one_split_witness :
    shows host0 2 = false ∧
    (SetStringerContentToBuffer host0 2 abcStringer).2 = none ∧
    (GetWindowList (SetStringerContentToBuffer host0 2 abcStringer).1).2.2 = none ∧
    (SplitOpenBuffer (GetWindowList (SetStringerContentToBuffer host0 2 abcStringer).1).1 2).2 = none ∧
    windowOpenRequests (ShowScratchBuffer host0 2 abcStringer).1.sent = 1 ∧
    windowOpenRequests
      (ShowScratchBuffer (ShowScratchBuffer host0 2 abcStringer).1 2 abcStringer).1.sent = 1 ∧
    windowOpenRequests
      (ShowScratchBuffer (ShowScratchBuffer host0 2 abcStringer).1 2 abcStringer).1.sent =
        windowOpenRequests host0.sent + 1 :=
  ⟨by decide, by decide, by decide, by decide, by decide, by decide,
    (C6_two_calls_one_split host0 2 abcStringer (by decide) (by decide) (by decide)
      (by decide)).2.2.2.2⟩

/-- C8: effects of `ShowScratchBuffer` are kept when it fails.  On `hostNoVivid`, for a plain
`fmt.Stringer`, the content write succeeds and the window-list fetch fails: the call
returns that error, buffer 2, which held other lines, now holds the lines of `s.String()`,
no window shows it and no window-open request was issued. -/
theorem C8_effects_kept :
    ∃ (h : Host) (b : Buffer) (s : Stringer) (e : GoError),
      (SetStringerContentToBuffer h b (some s)).2 = none ∧
      (GetWindowList (SetStringerContentToBuffer h b (some s)).1).2.2 = some e ∧
      (ShowScratchBuffer h b (some s)).2 = some e ∧
      (h.buffers b).map (fun bs => bs.lines) ≠ some (Split s.String newline) ∧
      ((ShowScratchBuffer h b (some s)).1.buffers b).map (fun bs => bs.lines) =
        some (Split s.String newline) ∧
      shows (ShowScratchBuffer h b (some s)).1 b = false ∧
      (ShowScratchBuffer h b (some s)).1.windows = h.windows ∧
      windowOpenRequests (ShowScratchBuffer h b (some s)).1.sent = 0 :=
  ⟨hostNoVivid, 2, ⟨abc, none, none⟩, GoError.unknownFunction, by decide⟩

end Nimvle
